import Mathlib

/-!
Shallow embedding of `src/gitlab_tools/progress.py` (progress tracking and
error reporting for the gitlab-cloner batch run).

The Python module is single-threaded and purely sequential, so every method
is modelled as a function on an explicit state record.  Interaction with the
third-party live display (`tqdm`) is modelled at the module boundary: each
method returns, besides the new state, the list of operations it forwards to
the display (`DisplayOp.create` / `.advance` / `.close`).  Python integers
are unbounded, hence `Int`; Python string comparison (used by `sorted`) is
lexicographic on code points, matching `String`'s linear order.
-/

namespace GitlabCloner

/-- `ErrorRecord` dataclass: one failure tied to a repository and optionally
a branch. -/
structure ErrorRecord where
  repository : String
  branch : String
  message : String
deriving DecidableEq

/-- Operations forwarded to the external progress-bar library (`tqdm`).
`create` carries the constructor arguments (`total`, `desc`, `unit`,
`ncols`, `bar_format`, `leave`). -/
inductive DisplayOp where
  | create (total : Int) (desc : String) (unitNoun : String) (ncols : Int)
      (barFormat : String) (leaveBar : Bool)
  | advance (count : Int)
  | close
deriving DecidableEq

/-- State of `ProgressManager`: run-level tracker.  `progress_bar` records
whether the optional `tqdm` handle is present (`None` in Python ↦ `false`). -/
structure ProgressManager where
  total_repos : Int
  quiet : Bool
  processed : Int
  errors : List ErrorRecord
  progress_bar : Bool
deriving DecidableEq

/-- `ProgressManager.__init__`: fields are initialised, and a live display is
created exactly when `total_repos > 0 and not quiet`. -/
def ProgressManager.init (total_repos : Int) (quiet : Bool) :
    ProgressManager × List DisplayOp :=
  let hasBar := decide (0 < total_repos) && !quiet
  ({ total_repos := total_repos, quiet := quiet, processed := 0,
     errors := [], progress_bar := hasBar },
   if hasBar then
     [DisplayOp.create total_repos "Processing repositories" "repo" 80
       "\x7bl_bar\x7d\x7bbar\x7d| \x7bn_fmt\x7d/\x7btotal_fmt\x7d [\x7bpercentage:.0f\x7d%]"
       true]
   else [])

/-- `ProgressManager.update`: `self.processed += count`, and the display is
advanced when a bar exists and quiet is off. -/
def ProgressManager.update (m : ProgressManager) (count : Int) :
    ProgressManager × List DisplayOp :=
  let m' := { m with processed := m.processed + count }
  if m.progress_bar && !m.quiet then (m', [DisplayOp.advance count])
  else (m', [])

/-- `ProgressManager.record_error`: appends `ErrorRecord(repository, branch,
message)` to `self.errors`.  No display interaction, no other field touched. -/
def ProgressManager.record_error (m : ProgressManager)
    (repository branch message : String) : ProgressManager :=
  { m with errors := m.errors ++ [ErrorRecord.mk repository branch message] }

/-- `ProgressManager.close`: forwards `close` to the bar if one is present;
the handle itself is never cleared. -/
def ProgressManager.close (m : ProgressManager) :
    ProgressManager × List DisplayOp :=
  if m.progress_bar then (m, [DisplayOp.close]) else (m, [])

/-- `"=" * 80`. -/
def eqSep80 : String := String.mk (List.replicate 80 '=')

/-- One error line of the summary: Python tests `if error.branch:`
(non-empty string is truthy). -/
def fmtError (e : ErrorRecord) : String :=
  if e.branch ≠ "" then "  • Branch [" ++ e.branch ++ "]: " ++ e.message
  else "  • " ++ e.message

/-- One step of building `errors_by_repo`: insertion-ordered dict of lists,
appending each error to its repository's bucket (fresh bucket at the end of
the dict when the key is new). -/
def addToGroup (acc : List (String × List ErrorRecord)) (e : ErrorRecord) :
    List (String × List ErrorRecord) :=
  if acc.any (fun p => p.1 == e.repository) then
    acc.map (fun p =>
      if p.1 == e.repository then (p.1, p.2 ++ [e]) else p)
  else
    acc ++ [(e.repository, [e])]

/-- The `errors_by_repo` dict of `print_summary`, built by the
`for error in self.errors` loop. -/
def groupByRepo (errors : List ErrorRecord) :
    List (String × List ErrorRecord) :=
  errors.foldl addToGroup []

/-- Python `sorted` on a list of strings.  The keys of `errors_by_repo` are
pairwise distinct, and `≤` on `String` is antisymmetric, so any correct sort
produces the same list as Python's stable mergesort; we use Mathlib's
insertion sort. -/
def sortStrings (l : List String) : List String :=
  l.insertionSort (fun a b => a ≤ b)

/-- The `for repo_name in sorted(errors_by_repo.keys())` iteration:
sorted keys paired with their buckets. -/
def sortedSummaryGroups (errors : List ErrorRecord) :
    List (String × List ErrorRecord) :=
  let g := groupByRepo errors
  (sortStrings (g.map Prod.fst)).map (fun k => (k, (g.lookup k).getD []))

/-- `ProgressManager.print_summary`: returns the list of strings passed to
`print` (each printed with a trailing newline), and the state, which the
method only reads. -/
def ProgressManager.print_summary (m : ProgressManager) :
    List String × ProgressManager :=
  (("\n" ++ eqSep80) ::
   ("PROCESSING COMPLETE: " ++ toString m.processed ++ "/" ++
      toString m.total_repos ++ " repositories processed") ::
   eqSep80 ::
   (if m.errors.isEmpty then
      ["\n✓ No errors encountered!"]
    else
      ("\n✗ " ++ toString m.errors.length ++ " ERROR(S) ENCOUNTERED:\n") ::
      ((sortedSummaryGroups m.errors).map (fun p =>
        ("Repository: " ++ p.1) :: (p.2.map fmtError ++ [""]))).flatten),
   m)

/-- State of `BranchProgressManager`: per-repository tracker.  It keeps no
processed counter; `errors` is the list of `(branch_name, error_message)`
pairs. -/
structure BranchProgressManager where
  repo_name : String
  total_branches : Int
  quiet : Bool
  errors : List (String × String)
  progress_bar : Bool
deriving DecidableEq

/-- `BranchProgressManager.__init__`. -/
def BranchProgressManager.init (repo_name : String) (total_branches : Int)
    (quiet : Bool) : BranchProgressManager × List DisplayOp :=
  let hasBar := decide (0 < total_branches) && !quiet
  ({ repo_name := repo_name, total_branches := total_branches, quiet := quiet,
     errors := [], progress_bar := hasBar },
   if hasBar then
     [DisplayOp.create total_branches ("  " ++ repo_name ++ ": branches")
       "branch" 70
       "\x7bl_bar\x7d\x7bbar\x7d| \x7bn_fmt\x7d/\x7btotal_fmt\x7d"
       false]
   else [])

/-- `BranchProgressManager.update`: display-only, the state is untouched. -/
def BranchProgressManager.update (m : BranchProgressManager) (count : Int) :
    BranchProgressManager × List DisplayOp :=
  if m.progress_bar && !m.quiet then (m, [DisplayOp.advance count])
  else (m, [])

/-- `BranchProgressManager.record_error`: appends `(branch, message)`. -/
def BranchProgressManager.record_error (m : BranchProgressManager)
    (branch message : String) : BranchProgressManager :=
  { m with errors := m.errors ++ [(branch, message)] }

/-- `BranchProgressManager.close`. -/
def BranchProgressManager.close (m : BranchProgressManager) :
    BranchProgressManager × List DisplayOp :=
  if m.progress_bar then (m, [DisplayOp.close]) else (m, [])

/-- `BranchProgressManager.get_errors`: materialises the pairs as
`ErrorRecord`s stamped with `self.repo_name`; the method only reads the
state, so it is returned unchanged. -/
def BranchProgressManager.get_errors (m : BranchProgressManager) :
    List ErrorRecord × BranchProgressManager :=
  (m.errors.map (fun p => ErrorRecord.mk m.repo_name p.1 p.2), m)

/-! ### Driver call sequences -/

/-- One call the external driver can make on a `ProgressManager` during the
run. -/
inductive RunOp where
  | update (count : Int)
  | record (repository branch message : String)
  | close
deriving DecidableEq

/-- Execute one driver call, collecting the display operations it emits. -/
def ProgressManager.execOp (m : ProgressManager) :
    RunOp → ProgressManager × List DisplayOp
  | RunOp.update c => m.update c
  | RunOp.record r b msg => (m.record_error r b msg, [])
  | RunOp.close => m.close

/-- Execute a sequence of driver calls, concatenating the display traces. -/
def ProgressManager.execOps (m : ProgressManager) :
    List RunOp → ProgressManager × List DisplayOp
  | [] => (m, [])
  | op :: ops =>
    let r := m.execOp op
    let rest := r.1.execOps ops
    (rest.1, r.2 ++ rest.2)

/-- One call the driver can make on a `BranchProgressManager`. -/
inductive BranchOp where
  | update (count : Int)
  | record (branch message : String)
  | close
deriving DecidableEq

/-- Execute one branch-level driver call. -/
def BranchProgressManager.execOp (m : BranchProgressManager) :
    BranchOp → BranchProgressManager × List DisplayOp
  | BranchOp.update c => m.update c
  | BranchOp.record b msg => (m.record_error b msg, [])
  | BranchOp.close => m.close

/-- Execute a sequence of branch-level driver calls. -/
def BranchProgressManager.execOps (m : BranchProgressManager) :
    List BranchOp → BranchProgressManager × List DisplayOp
  | [] => (m, [])
  | op :: ops =>
    let r := m.execOp op
    let rest := r.1.execOps ops
    (rest.1, r.2 ++ rest.2)

/-- A sequence of `record_error` calls on a `ProgressManager`, each given as
a `(repository, branch, message)` triple. -/
def ProgressManager.runRecords (m : ProgressManager) :
    List (String × String × String) → ProgressManager
  | [] => m
  | r :: rs => (m.record_error r.1 r.2.1 r.2.2).runRecords rs

/-- A sequence of `update` calls on a `ProgressManager`. -/
def ProgressManager.runUpdates (m : ProgressManager) :
    List Int → ProgressManager
  | [] => m
  | c :: cs => ((m.update c).1).runUpdates cs

/-- A sequence of `record_error` calls on a `BranchProgressManager`. -/
def BranchProgressManager.runRecords (m : BranchProgressManager) :
    List (String × String) → BranchProgressManager
  | [] => m
  | p :: ps => (m.record_error p.1 p.2).runRecords ps

/-- Invariant of the `errors_by_repo` dict built by `print_summary`:
its keys are pairwise distinct, they are exactly the repositories occurring
in the error list, and each bucket is the subsequence of the error list with
that repository, in recorded order. -/
structure GroupInv (l : List ErrorRecord)
    (g : List (String × List ErrorRecord)) : Prop where
  nodup : (g.map Prod.fst).Nodup
  mem_keys : ∀ k, k ∈ g.map Prod.fst ↔ ∃ e ∈ l, e.repository = k
  buckets : ∀ p ∈ g, p.2 = l.filter (fun e => e.repository == p.1)

/-! ### Properties of the summary grouping -/

/-- Processing one more error at the end of the error list is one
`addToGroup` step on the dict. -/
theorem groupByRepo_concat (l : List ErrorRecord) (e : ErrorRecord) :
    groupByRepo (l ++ [e]) = addToGroup (groupByRepo l) e := by
  simp [groupByRepo, List.foldl_append]

theorem groupByRepo_inv (l : List ErrorRecord) :
    GroupInv l (groupByRepo l) := by
  induction l using List.reverseRecOn with
  | nil =>
    exact ⟨by simp [groupByRepo], by simp [groupByRepo], by simp [groupByRepo]⟩
  | append_singleton l e ih =>
    rw [groupByRepo_concat]
    unfold addToGroup
    by_cases hmem : (groupByRepo l).any (fun p => p.1 == e.repository) = true
    · rw [if_pos hmem]
      have hfst : ∀ p : String × List ErrorRecord,
          Prod.fst (if p.1 == e.repository then (p.1, p.2 ++ [e]) else p) = p.1 := by
        intro p; split <;> rfl
      have hkeys : (((groupByRepo l).map fun p =>
            if p.1 == e.repository then (p.1, p.2 ++ [e]) else p).map Prod.fst)
          = (groupByRepo l).map Prod.fst := by
        rw [List.map_map]
        exact List.map_congr_left fun p _ => hfst p
      have hrep : e.repository ∈ (groupByRepo l).map Prod.fst := by
        rcases List.any_eq_true.mp hmem with ⟨p, hp, hpe⟩
        have hp1 : p.1 = e.repository := by simpa using hpe
        exact hp1 ▸ List.mem_map_of_mem Prod.fst hp
      refine ⟨?_, ?_, ?_⟩
      · rw [hkeys]; exact ih.nodup
      · intro k
        rw [hkeys, ih.mem_keys k]
        constructor
        · rintro ⟨e', he', rfl⟩
          exact ⟨e', by simp [he'], rfl⟩
        · rintro ⟨e', he', rfl⟩
          rcases List.mem_append.mp he' with h | h
          · exact ⟨e', h, rfl⟩
          · have he : e' = e := by simpa using h
            subst he
            exact (ih.mem_keys e'.repository).mp hrep
      · intro p' hp'
        rcases List.mem_map.mp hp' with ⟨p, hp, rfl⟩
        rw [List.filter_append]
        by_cases hpe : p.1 = e.repository
        · rw [if_pos (by simpa using hpe)]
          have hbucket := ih.buckets p hp
          have hfe : [e].filter (fun e' => e'.repository == p.1) = [e] := by
            simp [hpe]
          simp only [hfe]
          exact congrArg (· ++ [e]) hbucket
        · rw [if_neg (by simpa using hpe)]
          have hfe : [e].filter (fun e' => e'.repository == p.1) = [] := by
            simp; exact fun hc => hpe hc.symm
          simp only [hfe, List.append_nil]
          exact ih.buckets p hp
    · rw [if_neg hmem]
      have hnot : e.repository ∉ (groupByRepo l).map Prod.fst := by
        intro hc
        rcases List.mem_map.mp hc with ⟨p, hp, hp1⟩
        exact hmem (List.any_eq_true.mpr ⟨p, hp, by simp [hp1]⟩)
      have hnol : ∀ e' ∈ l, e'.repository ≠ e.repository := by
        intro e' he' hc
        exact hnot ((ih.mem_keys e.repository).mpr ⟨e', he', hc⟩)
      refine ⟨?_, ?_, ?_⟩
      · rw [List.map_append]
        simp only [List.map_cons, List.map_nil]
        exact List.Nodup.append ih.nodup (List.nodup_singleton _)
          (by simpa [List.disjoint_singleton] using hnot)
      · intro k
        rw [List.map_append]
        simp only [List.map_cons, List.map_nil, List.mem_append,
          List.mem_singleton]
        rw [ih.mem_keys k]
        constructor
        · rintro (⟨e', he', rfl⟩ | rfl)
          · exact ⟨e', by simp [he'], rfl⟩
          · exact ⟨e, by simp, rfl⟩
        · rintro ⟨e', he' | he, rfl⟩
          · exact Or.inl ⟨e', he', rfl⟩
          · subst he
            exact Or.inr rfl
      · intro p hp
        rcases List.mem_append.mp hp with h | h
        · rw [List.filter_append]
          have hpe : e.repository ≠ p.1 := by
            intro hc
            exact hnot (hc ▸ List.mem_map_of_mem Prod.fst h)
          have hfe : [e].filter (fun e' => e'.repository == p.1) = [] := by
            simp [hpe]
          simp only [hfe, List.append_nil]
          exact ih.buckets p h
        · have hpe : p = (e.repository, [e]) := by simpa using h
          subst hpe
          rw [List.filter_append]
          have hl : l.filter (fun e' => e'.repository == e.repository) = [] := by
            rw [List.filter_eq_nil_iff]
            intro e' he'
            simpa using hnol e' he'
          simp [hl]

/-- Dict lookup on a key that occurs among the keys succeeds and returns a
value paired with that key in the dict. -/
theorem lookup_some_of_mem_keys {g : List (String × List ErrorRecord)}
    {k : String} (h : k ∈ g.map Prod.fst) :
    ∃ v, g.lookup k = some v ∧ (k, v) ∈ g := by
  induction g with
  | nil => simp at h
  | cons a g ih =>
    obtain ⟨k', v'⟩ := a
    by_cases hk : k = k'
    · subst hk
      exact ⟨v', by simp [List.lookup], by simp⟩
    · have hk' : k ∈ g.map Prod.fst := by
        rcases List.mem_map.mp h with ⟨p, hp, rfl⟩
        rcases List.mem_cons.mp hp with h1 | h1
        · exact absurd (congrArg Prod.fst h1) hk
        · exact List.mem_map_of_mem Prod.fst h1
      rcases ih hk' with ⟨v, hl, hm⟩
      refine ⟨v, ?_, List.mem_cons_of_mem _ hm⟩
      have hbeq : (k == k') = false := by simp [hk]
      simpa [List.lookup, hbeq] using hl

/-- The keys of the sorted summary groups are the sorted dict keys. -/
theorem sortedSummaryGroups_map_fst (errors : List ErrorRecord) :
    (sortedSummaryGroups errors).map Prod.fst
      = sortStrings ((groupByRepo errors).map Prod.fst) := by
  simp [sortedSummaryGroups, List.map_map, Function.comp_def]

/-- The unit names printed by the summary are exactly the repositories of
the recorded errors. -/
theorem sortedSummaryGroups_mem_keys (errors : List ErrorRecord)
    (k : String) :
    k ∈ (sortedSummaryGroups errors).map Prod.fst ↔
      ∃ e ∈ errors, e.repository = k := by
  rw [sortedSummaryGroups_map_fst]
  rw [show sortStrings ((groupByRepo errors).map Prod.fst)
      = ((groupByRepo errors).map Prod.fst).insertionSort (fun a b => a ≤ b)
    from rfl]
  rw [List.mem_insertionSort]
  exact (groupByRepo_inv errors).mem_keys k

/-- The unit names appear in the summary in strictly ascending lexicographic
order. -/
theorem sortedSummaryGroups_sorted (errors : List ErrorRecord) :
    ((sortedSummaryGroups errors).map Prod.fst).Sorted
      (fun a b : String => a < b) := by
  rw [sortedSummaryGroups_map_fst]
  have hs : (sortStrings ((groupByRepo errors).map Prod.fst)).Sorted
      (fun a b : String => a ≤ b) :=
    List.sorted_insertionSort _ _
  have hn : (sortStrings ((groupByRepo errors).map Prod.fst)).Nodup :=
    ((List.perm_insertionSort _ _).nodup_iff).mpr (groupByRepo_inv errors).nodup
  exact List.Sorted.lt_of_le hs hn

/-- Each printed bucket is the filter of the recorded error list to that
unit, hence errors appear within a unit block in recording order. -/
theorem sortedSummaryGroups_buckets (errors : List ErrorRecord) :
    ∀ p ∈ sortedSummaryGroups errors,
      p.2 = errors.filter (fun e => e.repository == p.1) := by
  intro p hp
  rcases List.mem_map.mp hp with ⟨k, hk, rfl⟩
  have hk' : k ∈ (groupByRepo errors).map Prod.fst := by
    have := (List.mem_insertionSort (fun a b : String => a ≤ b)).mp hk
    exact this
  rcases lookup_some_of_mem_keys hk' with ⟨v, hl, hm⟩
  simp only [hl, Option.getD_some]
  exact (groupByRepo_inv errors).buckets (k, v) hm

/-! ### State-evolution helper lemmas -/

theorem update_fst (m : ProgressManager) (c : Int) :
    (m.update c).1 = { m with processed := m.processed + c } := by
  unfold ProgressManager.update
  split <;> rfl

theorem close_fst (m : ProgressManager) : (m.close).1 = m := by
  unfold ProgressManager.close
  split <;> rfl

theorem branch_update_fst (m : BranchProgressManager) (c : Int) :
    (m.update c).1 = m := by
  unfold BranchProgressManager.update
  split <;> rfl

theorem branch_close_fst (m : BranchProgressManager) : (m.close).1 = m := by
  unfold BranchProgressManager.close
  split <;> rfl

theorem runRecords_errors (m : ProgressManager)
    (rs : List (String × String × String)) :
    (m.runRecords rs).errors
      = m.errors ++ rs.map (fun r => ErrorRecord.mk r.1 r.2.1 r.2.2) := by
  induction rs generalizing m with
  | nil => simp [ProgressManager.runRecords]
  | cons r rs ih =>
    rw [ProgressManager.runRecords, ih]
    simp [ProgressManager.record_error]

theorem runUpdates_processed (m : ProgressManager) (cs : List Int) :
    (m.runUpdates cs).processed = m.processed + cs.sum := by
  induction cs generalizing m with
  | nil => simp [ProgressManager.runUpdates]
  | cons c cs ih =>
    rw [ProgressManager.runUpdates, ih, update_fst]
    simp [add_assoc]

theorem branch_runRecords_errors (m : BranchProgressManager)
    (ps : List (String × String)) :
    (m.runRecords ps).errors = m.errors ++ ps := by
  induction ps generalizing m with
  | nil => simp [BranchProgressManager.runRecords]
  | cons p ps ih =>
    rw [BranchProgressManager.runRecords, ih]
    simp [BranchProgressManager.record_error]

theorem branch_runRecords_repo_name (m : BranchProgressManager)
    (ps : List (String × String)) :
    (m.runRecords ps).repo_name = m.repo_name := by
  induction ps generalizing m with
  | nil => rfl
  | cons p ps ih =>
    rw [BranchProgressManager.runRecords, ih]
    rfl

theorem execOps_no_display_run (ops : List RunOp) :
    ∀ m : ProgressManager, m.progress_bar = false →
      (m.execOps ops).2 = [] ∧ (m.execOps ops).1.progress_bar = false := by
  induction ops with
  | nil => exact fun m h => ⟨rfl, h⟩
  | cons op ops ih =>
    intro m h
    have hop : (m.execOp op).2 = [] ∧ (m.execOp op).1.progress_bar = false := by
      cases op with
      | update c =>
        constructor
        · simp [ProgressManager.execOp, ProgressManager.update, h]
        · rw [show (m.execOp (RunOp.update c)).1 = (m.update c).1 from rfl,
            update_fst]
          exact h
      | record r b msg => exact ⟨rfl, h⟩
      | close =>
        constructor
        · simp [ProgressManager.execOp, ProgressManager.close, h]
        · rw [show (m.execOp RunOp.close).1 = (m.close).1 from rfl, close_fst]
          exact h
    have hrest := ih (m.execOp op).1 hop.2
    refine ⟨?_, hrest.2⟩
    show (m.execOp op).2 ++ ((m.execOp op).1.execOps ops).2 = []
    rw [hop.1, hrest.1]
    rfl

theorem execOps_no_display_branch (bops : List BranchOp) :
    ∀ m : BranchProgressManager, m.progress_bar = false →
      (m.execOps bops).2 = [] ∧ (m.execOps bops).1.progress_bar = false := by
  induction bops with
  | nil => exact fun m h => ⟨rfl, h⟩
  | cons op ops ih =>
    intro m h
    have hop : (m.execOp op).2 = [] ∧ (m.execOp op).1.progress_bar = false := by
      cases op with
      | update c =>
        constructor
        · simp [BranchProgressManager.execOp, BranchProgressManager.update, h]
        · rw [show (m.execOp (BranchOp.update c)).1 = (m.update c).1 from rfl,
            branch_update_fst]
          exact h
      | record b msg => exact ⟨rfl, h⟩
      | close =>
        constructor
        · simp [BranchProgressManager.execOp, BranchProgressManager.close, h]
        · rw [show (m.execOp BranchOp.close).1 = (m.close).1 from rfl,
            branch_close_fst]
          exact h
    have hrest := ih (m.execOp op).1 hop.2
    refine ⟨?_, hrest.2⟩
    show (m.execOp op).2 ++ ((m.execOp op).1.execOps ops).2 = []
    rw [hop.1, hrest.1]
    rfl

/-- The data fields (`total_repos`, `processed`, `errors`) evolve under
driver calls independently of `quiet` and of the display handle. -/
theorem execOps_data_indep (ops : List RunOp) :
    ∀ m₁ m₂ : ProgressManager, m₁.total_repos = m₂.total_repos →
      m₁.processed = m₂.processed → m₁.errors = m₂.errors →
      (m₁.execOps ops).1.total_repos = (m₂.execOps ops).1.total_repos ∧
      (m₁.execOps ops).1.processed = (m₂.execOps ops).1.processed ∧
      (m₁.execOps ops).1.errors = (m₂.execOps ops).1.errors := by
  induction ops with
  | nil => exact fun m₁ m₂ h1 h2 h3 => ⟨h1, h2, h3⟩
  | cons op ops ih =>
    intro m₁ m₂ h1 h2 h3
    have hop : (m₁.execOp op).1.total_repos = (m₂.execOp op).1.total_repos ∧
        (m₁.execOp op).1.processed = (m₂.execOp op).1.processed ∧
        (m₁.execOp op).1.errors = (m₂.execOp op).1.errors := by
      cases op with
      | update c =>
        simp only [ProgressManager.execOp]
        rw [update_fst, update_fst]
        exact ⟨h1, by simpa using congrArg (· + c) h2, h3⟩
      | record r b msg =>
        exact ⟨h1, h2, by simp [ProgressManager.execOp,
          ProgressManager.record_error, h3]⟩
      | close =>
        simp only [ProgressManager.execOp]
        rw [close_fst, close_fst]
        exact ⟨h1, h2, h3⟩
    exact ih (m₁.execOp op).1 (m₂.execOp op).1 hop.1 hop.2.1 hop.2.2

/-- The branch tracker's data fields evolve independently of `quiet` and of
the display handle. -/
theorem branch_execOps_data_indep (bops : List BranchOp) :
    ∀ m₁ m₂ : BranchProgressManager, m₁.repo_name = m₂.repo_name →
      m₁.errors = m₂.errors →
      (m₁.execOps bops).1.repo_name = (m₂.execOps bops).1.repo_name ∧
      (m₁.execOps bops).1.errors = (m₂.execOps bops).1.errors := by
  induction bops with
  | nil => exact fun m₁ m₂ h1 h2 => ⟨h1, h2⟩
  | cons op ops ih =>
    intro m₁ m₂ h1 h2
    have hop : (m₁.execOp op).1.repo_name = (m₂.execOp op).1.repo_name ∧
        (m₁.execOp op).1.errors = (m₂.execOp op).1.errors := by
      cases op with
      | update c =>
        simp only [BranchProgressManager.execOp]
        rw [branch_update_fst, branch_update_fst]
        exact ⟨h1, h2⟩
      | record b msg =>
        exact ⟨h1, by simp [BranchProgressManager.execOp,
          BranchProgressManager.record_error, h2]⟩
      | close =>
        simp only [BranchProgressManager.execOp]
        rw [branch_close_fst, branch_close_fst]
        exact ⟨h1, h2⟩
    exact ih (m₁.execOp op).1 (m₂.execOp op).1 hop.1 hop.2

/-- The summary text depends only on `processed`, `total_repos` and
`errors`. -/
theorem print_summary_congr (m₁ m₂ : ProgressManager)
    (h1 : m₁.total_repos = m₂.total_repos) (h2 : m₁.processed = m₂.processed)
    (h3 : m₁.errors = m₂.errors) :
    (m₁.print_summary).1 = (m₂.print_summary).1 := by
  simp [ProgressManager.print_summary, h1, h2, h3]

/-! ### Claim theorems -/

/-- C3: for every `ProgressManager` and every finite sequence of `update`
calls with integer arguments, the internal `processed` counter afterwards
equals the sum of the arguments, for every `total_repos` and `quiet` flag:
the counter is never clamped to the total, and counts pushing it past the
total are accepted (the equation holds with no side condition on the sum). -/
theorem C3_update_accumulates (total : Int) (quiet : Bool) (cs : List Int) :
    (((ProgressManager.init total quiet).1).runUpdates cs).processed
      = cs.sum := by
  rw [runUpdates_processed]
  have h0 : (ProgressManager.init total quiet).1.processed = 0 := rfl
  rw [h0, zero_add]

/-- C7: `record_error` appends exactly one new `ErrorRecord` with the given
field values at the end of the error list, emits no display operation, and
leaves every other field of the tracker (`processed`, `total_repos`,
`quiet`, `progress_bar`) unchanged; being a total function of arbitrary
string arguments (duplicates and unseen unit names included), it raises
nothing. -/
theorem C7_record_error_frame (m : ProgressManager) (r b msg : String) :
    (m.record_error r b msg).errors
        = m.errors ++ [ErrorRecord.mk r b msg] ∧
    (m.record_error r b msg).processed = m.processed ∧
    (m.record_error r b msg).total_repos = m.total_repos ∧
    (m.record_error r b msg).quiet = m.quiet ∧
    (m.record_error r b msg).progress_bar = m.progress_bar ∧
    (m.execOp (RunOp.record r b msg)).2 = [] :=
  ⟨rfl, rfl, rfl, rfl, rfl, rfl⟩

/-- C10: `print_summary` is read-only: it returns the tracker state
unchanged (error list, processed counter, total, quiet flag and display
handle included), so repeating the call on the resulting state produces the
same output. -/
theorem C10_print_summary_readonly (m : ProgressManager) :
    (m.print_summary).2 = m ∧
    (((m.print_summary).2).print_summary).1 = (m.print_summary).1 :=
  ⟨rfl, rfl⟩

/-- C2: on a `BranchProgressManager` constructed with name `N`, after any
sequence of `record_error (branch, message)` calls, `get_errors` returns
exactly one `ErrorRecord` per recorded pair, in recording order, with
`repository = N` and branch/message from the pair; the call returns the
state unchanged (nothing is cleared), so a repeated call returns the same
sequence. -/
theorem C2_get_errors (N : String) (total : Int) (quiet : Bool)
    (ps : List (String × String)) :
    ((((BranchProgressManager.init N total quiet).1).runRecords ps).get_errors).1
        = ps.map (fun p => ErrorRecord.mk N p.1 p.2) ∧
    ((((BranchProgressManager.init N total quiet).1).runRecords ps).get_errors).2
        = ((BranchProgressManager.init N total quiet).1).runRecords ps ∧
    ((((((BranchProgressManager.init N total quiet).1).runRecords ps).get_errors).2).get_errors).1
        = ((((BranchProgressManager.init N total quiet).1).runRecords ps).get_errors).1 := by
  refine ⟨?_, rfl, rfl⟩
  have herr : (((BranchProgressManager.init N total quiet).1).runRecords ps).errors
      = ps := by
    rw [branch_runRecords_errors]
    rfl
  have hname : (((BranchProgressManager.init N total quiet).1).runRecords ps).repo_name
      = N := by
    rw [branch_runRecords_repo_name]
    rfl
  show (((BranchProgressManager.init N total quiet).1).runRecords ps).errors.map _
      = _
  rw [herr, hname]

/-- C6: on a tracker with an empty error list, `print_summary` prints the
separator block and the affirmative "no errors" line, and nothing else: no
unit header and no per-error line. -/
theorem C6_no_errors_summary (m : ProgressManager) (h : m.errors = []) :
    (m.print_summary).1 =
      [("\n" ++ eqSep80),
       "PROCESSING COMPLETE: " ++ toString m.processed ++ "/" ++
         toString m.total_repos ++ " repositories processed",
       eqSep80,
       "\n✓ No errors encountered!"] := by
  simp [ProgressManager.print_summary, h]

/-- Witness for C6 at a freshly constructed tracker with `total = 5`. -/
theorem C6_no_errors_summary_witness :
    (ProgressManager.init 5 false).1.errors = [] ∧
    ((ProgressManager.init 5 false).1.print_summary).1 =
      [("\n" ++ eqSep80),
       "PROCESSING COMPLETE: 0/5 repositories processed",
       eqSep80,
       "\n✓ No errors encountered!"] := by
  refine ⟨rfl, ?_⟩
  rw [C6_no_errors_summary (ProgressManager.init 5 false).1 rfl]
  rfl

/-- C1: after any non-empty sequence of `record_error` calls (triples
`(unit, sub_unit, message)` recorded in order), `print_summary` prints the
header block, the error-count line, and then one block per unit name, with
the unit names in strictly ascending lexicographic order regardless of
recording order, each block listing exactly that unit's errors in the exact
order they were recorded (its bucket is the recorded list filtered to that
unit), and the printed units are exactly the recorded unit names. -/
theorem C1_print_summary_group_order (total : Int) (quiet : Bool)
    (rs : List (String × String × String)) (h : rs ≠ []) :
    ((((ProgressManager.init total quiet).1).runRecords rs).print_summary).1
        = ("\n" ++ eqSep80) ::
          ("PROCESSING COMPLETE: " ++
            toString (((ProgressManager.init total quiet).1).runRecords rs).processed
            ++ "/" ++
            toString (((ProgressManager.init total quiet).1).runRecords rs).total_repos
            ++ " repositories processed") ::
          eqSep80 ::
          ("\n✗ " ++
            toString (((ProgressManager.init total quiet).1).runRecords rs).errors.length
            ++ " ERROR(S) ENCOUNTERED:\n") ::
          ((sortedSummaryGroups
              (((ProgressManager.init total quiet).1).runRecords rs).errors).map
            (fun p => ("Repository: " ++ p.1) ::
              (p.2.map fmtError ++ [""]))).flatten ∧
    (((ProgressManager.init total quiet).1).runRecords rs).errors
        = rs.map (fun r => ErrorRecord.mk r.1 r.2.1 r.2.2) ∧
    ((sortedSummaryGroups
        (((ProgressManager.init total quiet).1).runRecords rs).errors).map
          Prod.fst).Sorted (fun a b : String => a < b) ∧
    (∀ p ∈ sortedSummaryGroups
        (((ProgressManager.init total quiet).1).runRecords rs).errors,
      p.2 = (((ProgressManager.init total quiet).1).runRecords rs).errors.filter
        (fun e => e.repository == p.1)) ∧
    (∀ k, k ∈ (sortedSummaryGroups
        (((ProgressManager.init total quiet).1).runRecords rs).errors).map
          Prod.fst ↔
      ∃ e ∈ (((ProgressManager.init total quiet).1).runRecords rs).errors,
        e.repository = k) := by
  have herr : (((ProgressManager.init total quiet).1).runRecords rs).errors
      = rs.map (fun r => ErrorRecord.mk r.1 r.2.1 r.2.2) := by
    rw [runRecords_errors]
    rfl
  have hne : (((ProgressManager.init total quiet).1).runRecords rs).errors.isEmpty
      = false := by
    rw [herr]
    cases rs with
    | nil => exact absurd rfl h
    | cons r rs => rfl
  refine ⟨?_, herr, sortedSummaryGroups_sorted _, sortedSummaryGroups_buckets _,
    fun k => sortedSummaryGroups_mem_keys _ k⟩
  simp [ProgressManager.print_summary, hne]

/-- Witness for C1: recording units "zeta" then "alpha" prints blocks in the
order "alpha", "zeta". -/
theorem C1_print_summary_group_order_witness :
    ([("zeta", "b", "x"), ("alpha", "", "y")] :
        List (String × String × String)) ≠ [] ∧
    ((sortedSummaryGroups (((ProgressManager.init 2 false).1).runRecords
        [("zeta", "b", "x"), ("alpha", "", "y")]).errors).map Prod.fst).Sorted
      (fun a b : String => a < b) := by
  refine ⟨by simp, ?_⟩
  exact (C1_print_summary_group_order 2 false
    [("zeta", "b", "x"), ("alpha", "", "y")] (by simp)).2.2.1

/-- C9: exact textual layout of `print_summary`: a leading newline plus a
separator line of 80 '=' characters, the `processed/total` header, the
matching separator; in the error case the total error-count line, then
per-unit blocks, each error line rendering the message qualified by the
sub-unit (branch) name when it is non-empty and the bare message when it is
empty, with a trailing blank line after each unit block. -/
theorem C9_summary_layout (m : ProgressManager) (h : m.errors ≠ []) :
    (m.print_summary).1
        = ("\n" ++ eqSep80) ::
          ("PROCESSING COMPLETE: " ++ toString m.processed ++ "/" ++
            toString m.total_repos ++ " repositories processed") ::
          eqSep80 ::
          ("\n✗ " ++ toString m.errors.length ++ " ERROR(S) ENCOUNTERED:\n") ::
          ((sortedSummaryGroups m.errors).map
            (fun p => ("Repository: " ++ p.1) ::
              (p.2.map fmtError ++ [""]))).flatten ∧
    eqSep80.data = List.replicate 80 '=' ∧
    (∀ e : ErrorRecord, e.branch ≠ "" →
        fmtError e = "  • Branch [" ++ e.branch ++ "]: " ++ e.message) ∧
    (∀ e : ErrorRecord, e.branch = "" → fmtError e = "  • " ++ e.message) := by
  have hne : m.errors.isEmpty = false := by
    cases hm : m.errors with
    | nil => exact absurd hm h
    | cons a l => rfl
  refine ⟨by simp [ProgressManager.print_summary, hne], rfl, ?_, ?_⟩
  · intro e he
    simp [fmtError, he]
  · intro e he
    simp [fmtError, he]

/-- Witness for C9 on a tracker holding one branch-qualified error. -/
theorem C9_summary_layout_witness :
    ((ProgressManager.init 1 false).1.record_error "repo1" "dev" "boom").errors
        ≠ [] ∧
    eqSep80.data = List.replicate 80 '=' ∧
    fmtError (ErrorRecord.mk "repo1" "dev" "boom") = "  • Branch [dev]: boom" ∧
    fmtError (ErrorRecord.mk "repo1" "" "boom") = "  • boom" := by
  have hc := C9_summary_layout
    ((ProgressManager.init 1 false).1.record_error "repo1" "dev" "boom")
    (by simp [ProgressManager.record_error])
  refine ⟨by simp [ProgressManager.record_error], hc.2.1, ?_, ?_⟩
  · exact (hc.2.2.1 (ErrorRecord.mk "repo1" "dev" "boom") (by decide)).trans
      (by decide)
  · exact (hc.2.2.2 (ErrorRecord.mk "repo1" "" "boom") rfl).trans (by decide)

/-- C4: for both constructors a live display is created if and only if the
total is positive and quiet is false; when `total ≤ 0` (in particular
`total = 0`) or `quiet = true`, construction emits no display operation,
and no subsequent sequence of `update` / `record_error` / `close` calls
ever emits one; all operations are total functions (nothing raises). -/
theorem C4_display_allocation (total : Int) (quiet : Bool) (name : String)
    (ops : List RunOp) (bops : List BranchOp)
    (h : total ≤ 0 ∨ quiet = true) :
    (∀ (t : Int) (q : Bool),
        ((ProgressManager.init t q).1.progress_bar = true ↔
          0 < t ∧ q = false) ∧
        ((BranchProgressManager.init name t q).1.progress_bar = true ↔
          0 < t ∧ q = false)) ∧
    (ProgressManager.init total quiet).2 = [] ∧
    ((ProgressManager.init total quiet).1.execOps ops).2 = [] ∧
    (BranchProgressManager.init name total quiet).2 = [] ∧
    ((BranchProgressManager.init name total quiet).1.execOps bops).2 = [] := by
  have hbar : (decide (0 < total) && !quiet) = false := by
    rcases h with h | h
    · simp [decide_eq_false (not_lt.mpr h)]
    · simp [h]
  have hbar1 : (ProgressManager.init total quiet).1.progress_bar = false := hbar
  have hbar2 : (BranchProgressManager.init name total quiet).1.progress_bar
      = false := hbar
  refine ⟨?_, ?_, (execOps_no_display_run ops _ hbar1).1, ?_,
    (execOps_no_display_branch bops _ hbar2).1⟩
  · intro t q
    constructor
    · simp [ProgressManager.init]
    · simp [BranchProgressManager.init]
  · simp [ProgressManager.init, hbar]
  · simp [BranchProgressManager.init, hbar]

/-- Witness for C4 at `total = 0`, `quiet = false`. -/
theorem C4_display_allocation_witness :
    ((0 : Int) ≤ 0 ∨ false = true) ∧
    ((ProgressManager.init 0 false).1.execOps
        [RunOp.update 1, RunOp.close]).2 = [] := by
  refine ⟨Or.inl (by decide), ?_⟩
  exact (C4_display_allocation 0 false "repo" [RunOp.update 1, RunOp.close]
    [] (Or.inl (by decide))).2.2.1

/-- C8: the `quiet` flag influences only the live display: the same driver
call sequence on trackers differing only in `quiet` yields identical error
lists, identical processed counters, identical summary text, and identical
`get_errors` results for the branch tracker. -/
theorem C8_quiet_noninterference (total : Int) (name : String)
    (ops : List RunOp) (bops : List BranchOp) :
    ((ProgressManager.init total false).1.execOps ops).1.errors
        = ((ProgressManager.init total true).1.execOps ops).1.errors ∧
    ((ProgressManager.init total false).1.execOps ops).1.processed
        = ((ProgressManager.init total true).1.execOps ops).1.processed ∧
    ((((ProgressManager.init total false).1.execOps ops).1).print_summary).1
        = ((((ProgressManager.init total true).1.execOps ops).1).print_summary).1 ∧
    ((((BranchProgressManager.init name total false).1.execOps bops).1).get_errors).1
        = ((((BranchProgressManager.init name total true).1.execOps bops).1).get_errors).1 := by
  have hrun := execOps_data_indep ops (ProgressManager.init total false).1
    (ProgressManager.init total true).1 rfl rfl rfl
  have hbr := branch_execOps_data_indep bops
    (BranchProgressManager.init name total false).1
    (BranchProgressManager.init name total true).1 rfl rfl
  refine ⟨hrun.2.2, hrun.2.1,
    print_summary_congr _ _ hrun.1 hrun.2.1 hrun.2.2, ?_⟩
  simp [BranchProgressManager.get_errors, hbr.1, hbr.2]

/-- C5 counterexample: on a tracker that owns a display, the second `close`
call is not a display no-op — the tracker never clears its handle, so it
forwards `close` to the display again. -/
theorem C5_second_close_not_noop :
    ((((ProgressManager.init 1 false).1.close).1).close).2
        = [DisplayOp.close] ∧
    [DisplayOp.close] ≠ ([] : List DisplayOp) := by
  exact ⟨rfl, by simp⟩

/-- C5 amended: `close` never raises and never mutates the tracker; with no
display present it is a no-op, and with a display present every `close`
call (the second included) forwards one `close` operation to the display,
so idempotence of the release rests on the display's own `close`. -/
theorem C5_close_behavior (m : ProgressManager) (bm : BranchProgressManager) :
    (m.close).1 = m ∧
    (m.close).2 = (if m.progress_bar then [DisplayOp.close] else []) ∧
    ((m.close).1.close).2 = (m.close).2 ∧
    (bm.close).1 = bm ∧
    (bm.close).2 = (if bm.progress_bar then [DisplayOp.close] else []) ∧
    ((bm.close).1.close).2 = (bm.close).2 := by
  refine ⟨close_fst m, ?_, ?_, branch_close_fst bm, ?_, ?_⟩
  · by_cases hb : m.progress_bar <;> simp [ProgressManager.close, hb]
  · rw [close_fst]
  · by_cases hb : bm.progress_bar <;> simp [BranchProgressManager.close, hb]
  · rw [branch_close_fst]

end GitlabCloner
